import Mathlib

/-!
# TetherDB — shallow embedding and verification

A shallow embedding of the TetherDB document store
(`src/TetherDB/db.py`, `src/TetherDB/utils.py`) and proofs about its
operations: id generation, document envelope construction, the
attribute-flattening filter engine, and the delete / cleanup lifecycle.

JSON-decoded Python values are modelled by the inductive `JVal`
(numeric literals restricted to integers; the store only ever holds
JSON-decoded data).  Python dicts are modelled as insertion-ordered
association lists (`Doc`): updating an existing key keeps its position,
a new key is appended at the end, exactly as CPython dicts behave.
-/

namespace TetherDB

/-- A JSON-decoded Python value: string, integer, boolean, `None`,
list, or dict (insertion-ordered association list). -/
inductive JVal where
  | s (v : String)
  | i (v : Int)
  | b (v : Bool)
  | null
  | arr (l : List JVal)
  | obj (l : List (String × JVal))
deriving Repr

/-- A Python dict with string keys, as stored in the database:
an insertion-ordered association list. -/
abbrev Doc := List (String × JVal)

mutual

/-- Structural equality of JSON values, modelling Python `==` on
JSON-decoded data in canonical form (the store only contains data
round-tripped through the JSON codec). -/
def jeq : JVal → JVal → Bool
  | .s a, .s b => a == b
  | .i a, .i b => a == b
  | .b a, .b b => a == b
  | .null, .null => true
  | .arr a, .arr b => jeqList a b
  | .obj a, .obj b => jeqPairs a b
  | _, _ => false

/-- Elementwise equality of JSON lists. -/
def jeqList : List JVal → List JVal → Bool
  | [], [] => true
  | a :: as, b :: bs => jeq a b && jeqList as bs
  | _, _ => false

/-- Pairwise equality of association lists. -/
def jeqPairs : List (String × JVal) → List (String × JVal) → Bool
  | [], [] => true
  | (ka, va) :: as, (kb, vb) :: bs => ka == kb && jeq va vb && jeqPairs as bs
  | _, _ => false

end

mutual

/-- Python `repr` of a JSON-decoded value (`repr` is what `str` applies
to the elements of a list), as produced by CPython: strings are quoted
with single quotes, booleans print as `True` / `False`, `None` as
`None`. -/
def pyRepr : JVal → String
  | .s v => "\x27" ++ v ++ "\x27"
  | .i v => toString v
  | .b v => if v then "True" else "False"
  | .null => "None"
  | .arr l => "[" ++ String.intercalate ", " (pyReprList l) ++ "]"
  | .obj l => "\x7b" ++ String.intercalate ", " (pyReprPairs l) ++ "\x7d"

/-- The `repr` of each element of a JSON list. -/
def pyReprList : List JVal → List String
  | [] => []
  | a :: as => pyRepr a :: pyReprList as

/-- The `repr` of each `key: value` entry of a JSON dict. -/
def pyReprPairs : List (String × JVal) → List String
  | [] => []
  | (k, v) :: rest => ("\x27" ++ k ++ "\x27: " ++ pyRepr v) :: pyReprPairs rest

end

/-- Python `str` of a JSON-decoded value: the string itself for a
string, `repr` otherwise. -/
def pyStr : JVal → String
  | .s v => v
  | v => pyRepr v

/-- Python `s.endswith(c)` for a one-character suffix: the last
character of `s` equals `c`. -/
def endsWithChar (s : String) (c : Char) : Bool :=
  match s.data.getLast? with
  | some c1 => c1 == c
  | none => false

/-- Python slicing `s[:-1]`: drop the last character. -/
def dropLastChar (s : String) : String :=
  String.mk s.data.dropLast

/-- Model of `re.compile(pattern).match(s)` for a literal (metacharacter-free)
pattern: a regular-expression match anchored at the start of `s`, i.e.
a prefix test; it is not a full-string match. -/
def matchStart (pattern s : String) : Bool :=
  List.isPrefixOf pattern.data s.data

/-- Python dict lookup `d[k]` (first — and in a real dict only —
binding of `k`), `none` modelling a `KeyError`. -/
def dictGet (d : Doc) (k : String) : Option JVal :=
  match d with
  | [] => none
  | (k1, v1) :: rest => if k1 == k then some v1 else dictGet rest k

/-- Python dict assignment `d[k] = v`: an existing key keeps its
position and gets the new value, a new key is appended at the end. -/
def dictSet (d : Doc) (k : String) (v : JVal) : Doc :=
  match d with
  | [] => [(k, v)]
  | (k1, v1) :: rest =>
    if k1 == k then (k1, v) :: rest else (k1, v1) :: dictSet rest k v

/-- Python membership `k in d` for a dict. -/
def dictHasKey (d : Doc) (k : String) : Bool :=
  d.any (fun p => p.1 == k)

/-- Whether the pair `p` occurs among the items of the dict `d`
(the elementhood test underlying `frozenset(kw.items()) &
frozenset(d.items())`). -/
def pairIn (p : String × JVal) (d : Doc) : Bool :=
  d.any (fun q => q.1 == p.1 && jeq q.2 p.2)

/-- All of the dict's values are hashable, i.e. none is a list or a
dict; `frozenset(d.items())` raises `TypeError` otherwise. -/
def hashableDoc (d : Doc) : Bool :=
  d.all (fun p =>
    match p.2 with
    | .arr _ => false
    | .obj _ => false
    | _ => true)

/-- Python dict equality `a == b` for the documents compared by
`_queryset_append` (order-insensitive, key-for-key). -/
def docEq (a b : Doc) : Bool :=
  (a.all fun p =>
    match dictGet b p.1 with
    | some v => jeq v p.2
    | none => false) &&
  (b.all fun p =>
    match dictGet a p.1 with
    | some v => jeq v p.2
    | none => false)

/-! ## Calendar arithmetic for `iso_time`

`utils.iso_time` calls MicroPython's `time.localtime`, whose epoch is
2000-01-01 and which returns `(year, month, mday, hour, minute,
second, ...)`.  The conversion from epoch seconds to calendar fields is
implemented here directly. -/

/-- Gregorian leap-year test. -/
def isLeap (y : Nat) : Bool :=
  (y % 4 == 0 && y % 100 != 0) || y % 400 == 0

/-- Number of days in year `y`. -/
def daysInYear (y : Nat) : Nat :=
  if isLeap y then 366 else 365

/-- Number of days in month `m` (1-based) of year `y`. -/
def daysInMonth (y m : Nat) : Nat :=
  if m == 2 then (if isLeap y then 29 else 28)
  else if m == 4 || m == 6 || m == 9 || m == 11 then 30
  else 31

/-- Strip whole years from a day count starting at year `y`, returning
the final year and the remaining day-of-year offset.  The fuel
argument (always called with more fuel than there are whole years in
the day count) keeps the recursion structural. -/
def yearFromDaysAux : Nat → Nat → Nat → Nat × Nat
  | 0, y, d => (y, d)
  | fuel + 1, y, d =>
    if daysInYear y ≤ d then
      yearFromDaysAux fuel (y + 1) (d - daysInYear y)
    else
      (y, d)

/-- Strip whole years from a day count starting at year `y`. -/
def yearFromDays (y d : Nat) : Nat × Nat :=
  yearFromDaysAux (d + 1) y d

/-- Strip whole months from a day-of-year offset, returning the final
month (1-based) and the remaining day-of-month offset (0-based); fuel
as in `yearFromDaysAux`. -/
def monthFromDaysAux : Nat → Nat → Nat → Nat → Nat × Nat
  | 0, _, m, d => (m, d)
  | fuel + 1, y, m, d =>
    if daysInMonth y m ≤ d then
      monthFromDaysAux fuel y (m + 1) (d - daysInMonth y m)
    else
      (m, d)

/-- Strip whole months from a day-of-year offset. -/
def monthFromDays (y m d : Nat) : Nat × Nat :=
  monthFromDaysAux (d + 1) y m d

/-- MicroPython `time.localtime(t)` (epoch 2000-01-01), restricted to
the first six fields `[year, month, mday, hour, minute, second]` that
`iso_time` consumes. -/
def localtime (t : Nat) : List Nat :=
  let days := t / 86400
  let secs := t % 86400
  let yd := yearFromDays 2000 days
  let md := monthFromDays yd.1 1 yd.2
  [yd.1, md.1, md.2 + 1, secs / 3600, secs % 3600 / 60, secs % 60]

/-- Zero-pad a calendar field below 10 to two characters, exactly as
the loop in `utils.iso_time` does. -/
def padField (n : Nat) : String :=
  if n < 10 then "0" ++ toString n else toString n

/-- Embeds `utils.iso_time`: format epoch seconds as
`YYYY-MM-DDTHH:MM:SS<utc_offset>`; the offset label is appended
verbatim and does not shift the time value.  The Python default for
`utc_offset` is `"+00:00"`. -/
def iso_time (timestamp : Nat) (utc_offset : String) : String :=
  match localtime timestamp with
  | [y, mo, d, h, mi, s] =>
    padField y ++ "-" ++ padField mo ++ "-" ++ padField d ++ "T" ++
      padField h ++ ":" ++ padField mi ++ ":" ++ padField s ++ utc_offset
  | _ => ""

/-- Embeds `utils.time_to_iso`: replace the document's `timestamp` value with
its ISO-8601 rendering.  An empty `utc_offset` (the Python default
`""`, falsy) lets `iso_time` use its own `"+00:00"` default.  Returns
`none` when the document has no integer `timestamp` (the Python code
raises there). -/
def time_to_iso (document : Doc) (utc_offset : String) : Option Doc :=
  match dictGet document "timestamp" with
  | some (.i n) =>
    some (dictSet document "timestamp"
      (.s (if utc_offset == "" then iso_time n.toNat "+00:00"
           else iso_time n.toNat utc_offset)))
  | _ => none

/-- Embeds `utils.add_id`: store the record's key in the document under
`document_id`. -/
def add_id (document_id : String) (document : Doc) : Doc :=
  dictSet document "document_id" (.s document_id)

/-- Embeds `utils.generate_id`.  Here `draws` models the successive results of
`getrandbits(24)`; `keys` is the set of decoded keys currently in the
btree.  The source enters a `while True` loop: if the first draw
collides it makes a recursive retry, *discards* its result, and
`break`s out of the loop, so the function falls off its end and
returns `None` (modelled by `none`); otherwise it returns the drawn
id.  `none` is also returned when the draw stream is exhausted, which
cannot happen in Python. -/
def generate_id (draws : List Nat) (keys : List String) : Option String :=
  match draws with
  | [] => none
  | d :: rest =>
    let doc_id := toString (d % 16777216)
    if keys.contains doc_id then
      let _retry := generate_id rest keys
      none
    else
      some doc_id

mutual

/-- Embeds `utils.Document._set_attrs`: walk the document `dct`, flattening
nested dicts into `st` (the object's `__dict__`) with `__`-joined
paths.  `parent` is the accumulated path, `""` standing for Python's
falsy `None`/empty default. -/
def setAttrs : Doc → String → Doc → Doc
  | [], _, st => st
  | (key, value) :: rest, parent, st =>
    setAttrs rest parent (setAttrVal key value parent st)

/-- The body of `_set_attrs`'s loop for a single `key, value` item: a
dict value recurses (with the key as new parent, joined to a non-empty
parent path); a non-dict value under a parent is stored raw under the
joined path; at top level a list value is stringified and anything
else stored raw. -/
def setAttrVal : String → JVal → String → Doc → Doc
  | key, .obj value, parent, st =>
    if parent == "" then
      setAttrs value key st
    else
      setAttrs value (parent ++ "__" ++ key) st
  | key, value, parent, st =>
    if parent == "" then
      match value with
      | .arr l => dictSet st key (.s (pyStr (.arr l)))
      | _ => dictSet st key value
    else
      dictSet st (parent ++ "__" ++ key) value

end

/-- Embeds `utils.Document(document).__dict__`: the flattened view of a
document used by the filter engine. -/
def flattenDoc (d : Doc) : Doc :=
  setAttrs d "" []

/-! ## The database state and its operations (`db.py`) -/

/-- The state of an open `Database`: the btree's contents, the cached
document counter `db_len`, and the configuration values read by
`DBBase.__init__`.  `cleanup_seconds = 0` models the falsy "unset"
configuration value; empty `utc_offset` and `device_id` likewise model
their falsy defaults.  The btree's ascending key order is not
modelled: iteration order here is insertion order, on which no
verified claim depends. -/
structure DB where
  store : List (String × Doc)
  db_len : Nat
  device_id : String
  utc_offset : String
  cleanup_seconds : Nat
deriving Repr

/-- The `btree` `put`: replace the value of an existing key in place, or
append a new key. -/
def storePut (store : List (String × Doc)) (k : String) (d : Doc) :
    List (String × Doc) :=
  match store with
  | [] => [(k, d)]
  | (k1, d1) :: rest =>
    if k1 == k then (k1, d) :: rest else (k1, d1) :: storePut rest k d

/-- The `btree` `del`: remove the binding of key `k`. -/
def storeDel (store : List (String × Doc)) (k : String) :
    List (String × Doc) :=
  match store with
  | [] => []
  | (k1, d1) :: rest =>
    if k1 == k then rest else (k1, d1) :: storeDel rest k

/-- Whether key `k` is present in the store. -/
def storeHasKey (store : List (String × Doc)) (k : String) : Bool :=
  store.any (fun p => p.1 == k)

/-- Outcome of `Database.write`: the new state and generated id on
success, the `TypeError` raised for a non-dict document, or the crash
that follows `generate_id` returning `None` (`db.put(None, ...)`). -/
inductive WriteResult where
  | ok (db : DB) (id : String)
  | typeError
  | idError
deriving Repr

/-- Embeds `Database.write`: check the document is a dict, generate an id,
inject `timestamp` (epoch seconds `now`; `time()` is modelled at
integer granularity) and, when requested, `device_id`, then store the
serialized document and bump the cached counter. -/
def write (db : DB) (document : JVal) (device_id : Bool) (now : Int)
    (draws : List Nat) : WriteResult :=
  match document with
  | .obj doc =>
    match generate_id draws (db.store.map Prod.fst) with
    | none => .idError
    | some docId =>
      let doc1 := dictSet doc "timestamp" (.i now)
      let doc2 :=
        if device_id then dictSet doc1 "device_id" (.s db.device_id) else doc1
      .ok { db with store := storePut db.store docId doc2,
                    db_len := db.db_len + 1 } docId
  | _ => .typeError

/-- Observable outcome of `Database.delete`: the returned
`"... documents deleted"` string, the `"_id not found"` result value,
or the `UnboundLocalError` raised at the final `return` when neither
(or both) of `_id` / `drop_all` was given. -/
inductive DeleteMsg where
  | deletedMsg (n : Nat)
  | notFoundMsg
  | unboundLocalError
deriving Repr, DecidableEq

/-- Embeds `Database.delete`, returning the observable outcome together with
the (possibly unchanged) state.  A nonempty `_id` is truthy; the
misuse branch reaches the final `return` with `documents_deleted`
unassigned. -/
def delete (db : DB) (_id : String) (drop_all : Bool) : DeleteMsg × DB :=
  if _id != "" && !drop_all then
    if storeHasKey db.store _id then
      (.deletedMsg 1, { db with store := storeDel db.store _id,
                                db_len := db.db_len - 1 })
    else
      (.notFoundMsg, db)
  else if drop_all && _id == "" then
    (.deletedMsg db.db_len, { db with store := [], db_len := 0 })
  else
    (.unboundLocalError, db)

/-- Observable outcome of `Database.read`: a single document, the
sequence produced in `query_all` mode, the `None` returned when no
document matched, the printed guidance for argument misuse (which also
returns `None`), or an uncaught exception. -/
inductive ReadResult where
  | found (d : Doc)
  | foundMany (l : List Doc)
  | noneFound
  | guidance
  | crash
deriving Repr

/-- The single-id scan of `Database.read`: walk every record, and on a
key match convert the decoded document's timestamp and inject `_id`,
remembering the last match.  With `iso_8601 = False` a match crashes:
the loop variable still holds the raw bytes and `document["_id"] = ...`
raises `TypeError`.  A document without an integer `timestamp` makes
`time_to_iso` raise. -/
def readScan (utc_offset document_id : String) (iso : Bool)
    (store : List (String × Doc)) (acc : Option Doc) :
    Except Unit (Option Doc) :=
  match store with
  | [] => .ok acc
  | (k, d) :: rest =>
    if document_id == k then
      if iso then
        match time_to_iso d utc_offset with
        | none => .error ()
        | some doc1 =>
          readScan utc_offset document_id iso rest
            (some (dictSet doc1 "_id" (.s k)))
      else
        .error ()
    else
      readScan utc_offset document_id iso rest acc

/-- The `query_all` generator of `Database.read`, evaluated eagerly:
each record gets `document_id` injected and, with `iso_8601`, its
timestamp converted.  The source swaps the two offset branches, so a
*configured* `utc_offset` is never passed here and the default
`"+00:00"` label is always used. -/
def readAllDocs (utc_offset : String) (iso : Bool)
    (store : List (String × Doc)) : Except Unit (List Doc) :=
  match store with
  | [] => .ok []
  | (k, d) :: rest =>
    let base := add_id k d
    if iso then
      match (if utc_offset == "" then time_to_iso base utc_offset
             else time_to_iso base "") with
      | none => .error ()
      | some doc1 =>
        match readAllDocs utc_offset iso rest with
        | .error e => .error e
        | .ok l => .ok (doc1 :: l)
    else
      match readAllDocs utc_offset iso rest with
      | .error e => .error e
      | .ok l => .ok (base :: l)

/-- Embeds `Database.read`: exactly one of `document_id` / `query_all` selects
a mode; anything else prints guidance and returns `None`. -/
def read (db : DB) (document_id : String) (iso_8601 : Bool)
    (query_all : Bool) : ReadResult :=
  if document_id != "" && !query_all then
    match readScan db.utc_offset document_id iso_8601 db.store none with
    | .error _ => .crash
    | .ok none => .noneFound
    | .ok (some d) => .found d
  else if query_all && document_id == "" then
    match readAllDocs db.utc_offset iso_8601 db.store with
    | .error _ => .crash
    | .ok l => .foundMany l
  else
    .guidance

/-- The stored `timestamp` of a document, `none` when absent or not an
integer (where the Python comparison would raise). -/
def docTs (d : Doc) : Option Int :=
  match dictGet d "timestamp" with
  | some (.i n) => some n
  | _ => none

/-- The deletion loop of `Database.cleanup` over a snapshot of the
records: returns the kept records, the number deleted, and whether the
loop completed.  A record without an integer `timestamp` raises
mid-loop: that record and all later ones stay, earlier deletions
stand. -/
def cleanupScan (now secs : Int) :
    List (String × Doc) → List (String × Doc) × Nat × Bool
  | [] => ([], 0, true)
  | (k, d) :: rest =>
    match docTs d with
    | none => ((k, d) :: rest, 0, false)
    | some ts =>
      let r := cleanupScan now secs rest
      if now - ts ≥ secs then
        (r.1, r.2.1 + 1, r.2.2)
      else
        ((k, d) :: r.1, r.2.1, r.2.2)

/-- Observable outcome of `Database.cleanup`: the
`"... documents deleted"` string, the guidance string returned when no
truthy seconds value is available, or the uncaught exception from a
record without an integer timestamp. -/
inductive CleanupMsg where
  | deletedMsg (n : Nat)
  | guidanceMsg
  | crashMsg
deriving Repr, DecidableEq

/-- Embeds `Database.cleanup`: a truthy configured `cleanup_seconds` always
overrides the argument; otherwise a falsy argument (`None` or `0`)
returns the guidance string without scanning.  (The `TypeError` branch
for a truthy non-int argument is unreachable for well-typed calls and
is not modelled.)  The scan deletes every record whose age
`now - timestamp` is at least the threshold, decrementing the counter
per deletion. -/
def cleanupThreshold (db : DB) (seconds : Option Int) : Option Int :=
  if db.cleanup_seconds ≠ 0 then some (db.cleanup_seconds : Int)
  else
    match seconds with
    | none => none
    | some n => if n = 0 then none else some n

/-- The scan and flush of `Database.cleanup` once a threshold was
resolved. -/
def cleanup (db : DB) (seconds : Option Int) (now : Int) :
    CleanupMsg × DB :=
  match cleanupThreshold db seconds with
  | none => (.guidanceMsg, db)
  | some secs =>
    let r := cleanupScan now secs db.store
    ((if r.2.2 then .deletedMsg r.2.1 else .crashMsg),
     { db with store := r.1, db_len := db.db_len - r.2.1 })

/-! ## The filter engine (`Database.filter`) -/

/-- Embeds `_queryset_append`: append `db_doc` to the query set unless an
equal document (Python `==`) is already present. -/
def queryset_append (db_doc : Doc) (query_set : List Doc) : List Doc :=
  if query_set.any (fun q => docEq q db_doc) then query_set
  else query_set ++ [db_doc]

/-- The test performed by `_frozen_compare`:
`frozenset(keywords.items()) & frozenset(document.items()) ==
set(keywords.items())`, i.e. every keyword pair occurs among the
document's items.  The append it performs on success is kept at the
call sites. -/
def frozen_compare (keywords document : Doc) : Bool :=
  keywords.all (fun p => pairIn p document)

/-- Normalization applied while building `kw_items`: a list-valued
predicate is stringified, everything else is kept. -/
def normKwVal : JVal → JVal
  | .arr l => .s (pyStr (.arr l))
  | v => v

/-- All (normalized) predicate values are hashable;
`frozenset(kw_items.items())` raises otherwise. -/
def hashableKwargs (kwargs : List (String × JVal)) : Bool :=
  kwargs.all (fun p =>
    match normKwVal p.2 with
    | .arr _ => false
    | .obj _ => false
    | _ => true)

/-- Pass 1 of `Database.filter`: the predicates are added to
`kw_items` one at a time and `_frozen_compare` runs *inside* the loop
after each addition, so each comparison sees only the predicates
processed so far; any successful comparison appends `db_doc`.  Returns
the final `kw_items` and the updated query set. -/
def exactPass (fl db_doc : Doc) :
    List (String × JVal) → Doc → List Doc → Doc × List Doc
  | [], kw_items, qs => (kw_items, qs)
  | (k, v) :: rest, kw_items, qs =>
    let kw1 := dictSet kw_items k (normKwVal v)
    let qs1 := if frozen_compare kw1 fl then queryset_append db_doc qs else qs
    exactPass fl db_doc rest kw1 qs1

/-- Embeds `_wildcard_query`: strip the trailing `*` from the predicate value
and test the remainder against `str(document[key])` with `re.match`,
which anchors at the start of the string.  Patterns here are literal
(metacharacter-free), for which `re.match` is exactly a prefix test.
`document[key]` raises `KeyError` when the flattened view lacks the
key. -/
def wildcard_query (document : Doc) (key : String) (value : String) :
    Except Unit Bool :=
  match dictGet document key with
  | none => .error ()
  | some dv => .ok (matchStart (dropLastChar value) (pyStr dv))

/-- Pass 2 of `Database.filter`: for every predicate whose stringified
value ends in `*`, run `_wildcard_query`; on a match, record the
*document's* value for that key in `matched_kwargs`. -/
def wildcardPass (fl : Doc) : Doc → Doc → Except Unit Doc
  | [], matched => .ok matched
  | (k, v) :: rest, matched =>
    if endsWithChar (pyStr v) '*' then
      match wildcard_query fl k (pyStr v) with
      | .error e => .error e
      | .ok true =>
        match dictGet fl k with
        | some dv => wildcardPass fl rest (dictSet matched k dv)
        | none => .error ()
      | .ok false => wildcardPass fl rest matched
    else
      wildcardPass fl rest matched

/-- Processing of one stored record inside `Database.filter`'s main
loop: convert the timestamp and inject the id, flatten, run the exact
pass and then — independently of its outcome — the wildcard pass; when
`matched_kwargs` is non-empty, re-run the membership test with *only*
the wildcard-matched subset.  Errors model the uncaught exceptions: a
record without an integer timestamp, a `KeyError` from a wildcard
predicate on an absent key, and the `TypeError` from hashing an
unhashable item (raised by the first comparison, before any append
for this record). -/
def filterDoc (utc_offset : String) (kwargs : List (String × JVal))
    (recKey : String) (stored : Doc) (qs : List Doc) :
    Except Unit (List Doc) :=
  match time_to_iso (add_id recKey stored) utc_offset with
  | none => .error ()
  | some db_doc =>
    let fl := flattenDoc db_doc
    if kwargs.isEmpty then .ok qs
    else if !(hashableDoc fl && hashableKwargs kwargs) then .error ()
    else
      let r := exactPass fl db_doc kwargs [] qs
      match wildcardPass fl r.1 [] with
      | .error e => .error e
      | .ok matched =>
        if matched.isEmpty then .ok r.2
        else .ok (if frozen_compare matched fl then
                    queryset_append db_doc r.2
                  else r.2)

/-- The main loop of `Database.filter` over all stored records. -/
def filterFold (utc_offset : String) (kwargs : List (String × JVal)) :
    List (String × Doc) → List Doc → Except Unit (List Doc)
  | [], qs => .ok qs
  | (k, d) :: rest, qs =>
    match filterDoc utc_offset kwargs k d qs with
    | .error e => .error e
    | .ok qs1 => filterFold utc_offset kwargs rest qs1

/-- Embeds `Database.filter`: run the main loop and return the collected
documents, or `None` (here `none`) when the query set is empty. -/
def filter (db : DB) (kwargs : List (String × JVal)) :
    Except Unit (Option (List Doc)) :=
  match filterFold db.utc_offset kwargs db.store [] with
  | .error e => .error e
  | .ok qs => .ok (if qs.length ≥ 1 then some qs else none)

/-! ## Operation sequences (for the counter invariant) -/

/-- One call to a mutating `Database` operation, together with the
ambient time / randomness it consumes. -/
inductive Op where
  | writeOp (document : JVal) (device_id : Bool) (now : Int)
      (draws : List Nat)
  | deleteOp (_id : String) (drop_all : Bool)
  | cleanupOp (seconds : Option Int) (now : Int)

/-- The state after one operation call: completed mutations take
effect; a call that raises or returns early leaves the state it
produced up to that point (`write`'s failures mutate nothing,
`delete`'s misuse raises before any mutation, a crashing `cleanup`
keeps its earlier deletions). -/
def step (db : DB) : Op → DB
  | .writeOp document device_id now draws =>
    match write db document device_id now draws with
    | .ok db1 _ => db1
    | _ => db
  | .deleteOp _id drop_all => (delete db _id drop_all).2
  | .cleanupOp seconds now => (cleanup db seconds now).2

/-! ## Reference flattener (for the flattening claim) -/

/-- Reference definition following the (amended) specification of the
flattener: walk the nested mappings recursively, joining paths with
`__` (a mapping with no parent contributes its bare key); a
sequence-valued leaf with *no parent path* is stringified, a nested
sequence-valued leaf is kept as-is, and scalar leaves keep their value
under their joined path. -/
def flattenSpecPairs (parent : String) : Doc → List (String × JVal)
  | [] => []
  | (k, .obj o) :: rest =>
    flattenSpecPairs (if parent == "" then k else parent ++ "__" ++ k) o ++
      flattenSpecPairs parent rest
  | (k, v) :: rest =>
    (if parent == "" then
      (k, match v with
          | .arr l => .s (pyStr (.arr l))
          | w => w)
     else
      (parent ++ "__" ++ k, v)) :: flattenSpecPairs parent rest

/-- The reference flattened view: the collected leaves entered into a
dict in order. -/
def flattenSpec (d : Doc) : Doc :=
  (flattenSpecPairs "" d).foldl (fun st p => dictSet st p.1 p.2) []

/-! ## Derived notions and concrete fixtures -/

/-- The keyword dict built by pass 1 of `Database.filter` (insertion
into `kw_items` with list values stringified); pass 2 iterates over
this dict. -/
def buildKw : List (String × JVal) → Doc → Doc
  | [], kw => kw
  | (k, v) :: rest, kw => buildKw rest (dictSet kw k (normKwVal v))

/-- First binding of key `k` in the store (the btree's unique binding
when keys are unique). -/
def storeGet (store : List (String × Doc)) (k : String) : Option Doc :=
  match store with
  | [] => none
  | (k1, d1) :: rest => if k1 == k then some d1 else storeGet rest k

/-- The dict has no repeated keys — true of every Python dict and of
every document decoded from the store. -/
def keysNodup (d : Doc) : Prop :=
  (d.map Prod.fst).Nodup

/-- The cached-counter invariant: the store's reported length equals
the number of keys physically present. -/
def dbWf (db : DB) : Prop :=
  db.db_len = db.store.length

/-- An open store with empty (falsy) configuration: no configured
device id, no UTC offset, no cleanup default. -/
def emptyDB : DB :=
  { store := [], db_len := 0, device_id := "", utc_offset := "",
    cleanup_seconds := 0 }

/-- A store holding the single document `{"a": 1}` written at epoch
second 0. -/
def oneDocDB : DB :=
  { emptyDB with store := [("1", [("a", .i 1), ("timestamp", .i 0)])],
                 db_len := 1 }

/-- That document as the filter engine presents it (timestamp
converted, id injected). -/
def oneDocOut : Doc :=
  [("a", .i 1), ("timestamp", .s "2000-01-01T00:00:00+00:00"),
   ("document_id", .s "1")]

/-- A store holding one document freshly written at epoch second
100. -/
def freshDocDB : DB :=
  { emptyDB with store := [("1", [("a", .i 1), ("timestamp", .i 100)])],
                 db_len := 1 }

/-- The store after writing `{"name": "Alice"}` at epoch second 0
under id `"1"`. -/
def aliceDB : DB :=
  { emptyDB with store := [("1", [("name", .s "Alice"), ("timestamp", .i 0)])],
                 db_len := 1 }

/-- Alice's document as the filter engine presents it. -/
def aliceOut : Doc :=
  [("name", .s "Alice"), ("timestamp", .s "2000-01-01T00:00:00+00:00"),
   ("document_id", .s "1")]

/-- An open store with a configured device id. -/
def devDB : DB :=
  { emptyDB with device_id := "dev" }

/-- The state of `devDB` after writing the document `{"timestamp": 999}` at epoch
second 0: the caller's `timestamp` value has been overwritten at write
time. -/
def writtenTsDB : DB :=
  { devDB with store := [("0", [("timestamp", .i 0), ("device_id", .s "dev")])],
               db_len := 1 }

/-- What `read` returns for that record. -/
def tsReadDoc : Doc :=
  [("timestamp", .s "2000-01-01T00:00:00+00:00"), ("device_id", .s "dev"),
   ("_id", .s "0")]

/-- A store holding the nested document `{"user": {"name": "Al"}}`
written at epoch second 0. -/
def userDB : DB :=
  { emptyDB with
    store := [("1", [("user", .obj [("name", .s "Al")]), ("timestamp", .i 0)])],
    db_len := 1 }

/-- That document as the filter engine presents it. -/
def userOut : Doc :=
  [("user", .obj [("name", .s "Al")]),
   ("timestamp", .s "2000-01-01T00:00:00+00:00"), ("document_id", .s "1")]

/-- The state of `devDB` after writing `{"x": 5}` at epoch second 0 under id
`"0"`. -/
def xDocDB : DB :=
  { devDB with
    store := [("0", [("x", .i 5), ("timestamp", .i 0), ("device_id", .s "dev")])],
    db_len := 1 }

/-! ## Basic lemmas -/

mutual

/-- Reflexivity of `jeq`. -/
theorem jeq_refl : (v : JVal) → jeq v v = true
  | .s _ => by simp [jeq]
  | .i _ => by simp [jeq]
  | .b _ => by simp [jeq]
  | .null => by simp [jeq]
  | .arr l => by simp [jeq, jeqList_refl l]
  | .obj l => by simp [jeq, jeqPairs_refl l]

/-- Reflexivity of `jeqList`. -/
theorem jeqList_refl : (l : List JVal) → jeqList l l = true
  | [] => by simp [jeqList]
  | a :: as => by simp [jeqList, jeq_refl a, jeqList_refl as]

/-- Reflexivity of `jeqPairs`. -/
theorem jeqPairs_refl : (l : List (String × JVal)) → jeqPairs l l = true
  | [] => by simp [jeqPairs]
  | (_, v) :: rest => by simp [jeqPairs, jeq_refl v, jeqPairs_refl rest]

end

/-- Looking up the key just assigned returns the assigned value. -/
theorem dictGet_dictSet_self (d : Doc) (k : String) (v : JVal) :
    dictGet (dictSet d k v) k = some v := by
  induction d with
  | nil => simp [dictSet, dictGet]
  | cons p rest ih =>
    obtain ⟨k1, v1⟩ := p
    by_cases h : k1 = k <;> simp [dictSet, dictGet, h, ih]

/-- Assignment leaves other keys untouched. -/
theorem dictGet_dictSet_ne (d : Doc) (k k2 : String) (v : JVal)
    (h : k ≠ k2) : dictGet (dictSet d k v) k2 = dictGet d k2 := by
  induction d with
  | nil => simp [dictSet, dictGet, h]
  | cons p rest ih =>
    obtain ⟨k1, v1⟩ := p
    by_cases h1 : k1 = k
    · subst h1; simp [dictSet, dictGet, h]
    · simp [dictSet, dictGet, h1, ih]

/-- A dict is never empty after an assignment. -/
theorem dictSet_ne_nil (d : Doc) (k : String) (v : JVal) :
    dictSet d k v ≠ [] := by
  cases d with
  | nil => simp [dictSet]
  | cons p rest =>
    obtain ⟨k1, v1⟩ := p
    by_cases h : k1 = k <;> simp [dictSet, h]

/-- Every item of `dictSet d k v` is the new pair or an item of `d`. -/
theorem mem_dictSet (d : Doc) (k : String) (v : JVal) (p : String × JVal)
    (hp : p ∈ dictSet d k v) : p = (k, v) ∨ p ∈ d := by
  induction d with
  | nil => simpa [dictSet] using hp
  | cons q rest ih =>
    obtain ⟨k1, v1⟩ := q
    by_cases h : k1 = k
    · subst h
      simp [dictSet] at hp
      rcases hp with h1 | h1
      · exact Or.inl (by simp [h1])
      · exact Or.inr (by simp [h1])
    · simp [dictSet, h] at hp
      rcases hp with h1 | h1
      · exact Or.inr (by simp [h1])
      · rcases ih h1 with h2 | h2
        · exact Or.inl h2
        · exact Or.inr (by simp [h2])

/-- A successful lookup witnesses a pair among the dict's items. -/
theorem pairIn_of_dictGet (d : Doc) (k : String) (v : JVal)
    (h : dictGet d k = some v) : pairIn (k, v) d = true := by
  induction d with
  | nil => simp [dictGet] at h
  | cons q rest ih =>
    obtain ⟨k1, v1⟩ := q
    by_cases h1 : k1 = k
    · subst h1
      simp [dictGet] at h
      subst h
      simp [pairIn, jeq_refl]
    · simp [dictGet, h1] at h
      have := ih h
      simp [pairIn] at this ⊢
      exact Or.inr this

/-- In a dict without repeated keys, every item is found by lookup. -/
theorem dictGet_of_mem_nodup (d : Doc) (p : String × JVal)
    (hnd : keysNodup d) (hp : p ∈ d) : dictGet d p.1 = some p.2 := by
  induction d with
  | nil => simp at hp
  | cons q rest ih =>
    obtain ⟨k1, v1⟩ := q
    rw [keysNodup, List.map_cons, List.nodup_cons] at hnd
    rcases List.mem_cons.mp hp with h1 | h1
    · subst h1; simp [dictGet]
    · have hne : k1 ≠ p.1 := by
        intro he
        have hmem : p.1 ∈ rest.map Prod.fst := List.mem_map_of_mem Prod.fst h1
        exact hnd.1 (he.symm ▸ hmem)
      simp [dictGet, hne]
      exact ih hnd.2 h1

/-- Python dict equality is reflexive on dicts without repeated
keys. -/
theorem docEq_refl (d : Doc) (hnd : keysNodup d) : docEq d d = true := by
  have hall : d.all (fun p =>
      match dictGet d p.1 with
      | some v => jeq v p.2
      | none => false) = true := by
    rw [List.all_eq_true]
    intro p hp
    rw [dictGet_of_mem_nodup d p hnd hp]
    exact jeq_refl p.2
  simp [docEq, hall]

/-! ## Claim C1 — exact-pass AND semantics -/

/-- Claim C1: The exact pass of `Database.filter` does *not* require
every predicate to match: `_frozen_compare` runs inside the
predicate-normalization loop with the partially built predicate map,
so the stored document `{"a": 1}` is collected by
`filter(a=1, b=2)` even though the predicate pair `(b, 2)` occurs
nowhere in its flattened view (second conjunct).  This contradicts
the documented AND-over-all-predicates semantics. -/
theorem c1_exact_pass_appends_on_partial_match :
    filter oneDocDB [("a", .i 1), ("b", .i 2)] = .ok (some [oneDocOut]) ∧
    pairIn ("b", .i 2) (flattenDoc oneDocOut) = false :=
  ⟨rfl, rfl⟩

/-! ## Claim C2 — id generation on collision -/

/-- Claim C2: With live key `"5"` and the random stream drawing 5 then
6, `generate_id` returns `None` (the collision branch discards the
recursive retry's result and breaks out of the loop), although the
24-bit space is far from exhausted: the very next draw, 6, would have
produced the fresh id `"6"` (second conjunct). -/
theorem c2_generate_id_none_on_collision :
    generate_id [5, 6] ["5"] = none ∧ generate_id [6] ["5"] = some "6" :=
  ⟨rfl, rfl⟩

/-! ## Claim C3 — cleanup with an explicit zero threshold -/

/-- Claim C3: With no configured cleanup default, `cleanup(seconds=0)`
does not delete everything: `0` is falsy, so the guard
`elif not seconds` returns the guidance string and the store (one
document, written at epoch 0, cleaned at epoch 100) is left intact.
`cleanup(seconds=10_000_000)` on a freshly written document (written
and cleaned at epoch 100) deletes none, as the claim states. -/
theorem c3_cleanup_zero_seconds_guidance :
    cleanup oneDocDB (some 0) 100 = (.guidanceMsg, oneDocDB) ∧
    cleanup freshDocDB (some 10000000) 100 = (.deletedMsg 0, freshDocDB) :=
  ⟨rfl, rfl⟩

/-! ## Claim C7 — wildcard predicates -/

/-- Claim C7: After writing `{"name": "Alice"}` (epoch 0, draw 1,
device tagging off), `filter(name="Al*")` strips the trailing `*` and
prefix-matches `"Al"` against `"Alice"`, returning the document;
`filter(name="Bo*")` matches nothing and returns the `None`
sentinel. -/
theorem c7_wildcard_prefix_concrete :
    write emptyDB (.obj [("name", .s "Alice")]) false 0 [1] =
      .ok aliceDB "1" ∧
    filter aliceDB [("name", .s "Al*")] = .ok (some [aliceOut]) ∧
    filter aliceDB [("name", .s "Bo*")] = .ok none :=
  ⟨rfl, rfl, rfl⟩

/-! ## Claim C8 — flattening, counterexample part -/

/-- Claim C8, counterexample: Sequence-valued leaves are *not*
stringified at every depth: the nested list in
`{"a": {"b": [1]}}` is flattened to the key `"a__b"` holding the list
itself, which is not the string `"[1]"` (or any string), contradicting
the claim's "at any depth" reference definition. -/
theorem c8_counterexample_nested_list :
    flattenDoc [("a", .obj [("b", .arr [.i 1])])] =
      [("a__b", .arr [.i 1])] ∧
    JVal.arr [.i 1] ≠ JVal.s (pyStr (.arr [.i 1])) :=
  ⟨rfl, fun h => JVal.noConfusion h⟩

/-! ## Claim C9 — delete on an absent id -/

/-- Claim C9: Deleting an absent (nonempty — document ids are nonempty
decimal strings) id returns the `"_id not found"` result value without
raising, and leaves the store — keys and cached length alike —
exactly as it was. -/
theorem c9_delete_absent_id (db : DB) (_id : String) (hne : _id ≠ "")
    (habs : storeHasKey db.store _id = false) :
    delete db _id false = (.notFoundMsg, db) := by
  simp [delete, habs, hne]

/-- Witness for `c9_delete_absent_id`: id `"2"` against the
single-document store. -/
theorem c9_delete_absent_id_witness :
    delete oneDocDB "2" false = (.notFoundMsg, oneDocDB) :=
  c9_delete_absent_id oneDocDB "2" (by decide) (by rfl)

/-! ## Claim C10 — delete argument misuse -/

/-- Claim C10: `delete` called with neither a nonempty id nor
`drop_all`, or with both, assigns `documents_deleted` on no path and
raises `UnboundLocalError` at its final `return`; `read` under the
analogous misuse instead prints guidance and returns `None`
non-fatally. -/
theorem c10_delete_argument_misuse (db : DB) (_id : String)
    (hne : _id ≠ "") :
    (delete db "" false).1 = .unboundLocalError ∧
    (delete db _id true).1 = .unboundLocalError ∧
    read db "" true false = .guidance := by
  refine ⟨rfl, ?_, rfl⟩
  simp [delete, hne]

/-- Witness for `c10_delete_argument_misuse` on the empty store with
id `"x"`. -/
theorem c10_delete_argument_misuse_witness :
    (delete emptyDB "" false).1 = .unboundLocalError ∧
    (delete emptyDB "x" true).1 = .unboundLocalError ∧
    read emptyDB "" true false = .guidance :=
  c10_delete_argument_misuse emptyDB "x" (by decide)

/-! ## Claim C5 — the cached-counter invariant -/

/-- A successful generation returns an id absent from `keys`. -/
theorem generate_id_fresh (draws : List Nat) (keys : List String)
    (i : String) (h : generate_id draws keys = some i) : i ∉ keys := by
  cases draws with
  | nil => simp [generate_id] at h
  | cons d rest =>
    simp [generate_id] at h
    exact h.2 ▸ h.1

/-- The test `storeHasKey` agrees with membership among the mapped keys. -/
theorem storeHasKey_iff (store : List (String × Doc)) (k : String) :
    storeHasKey store k = true ↔ k ∈ store.map Prod.fst := by
  simp [storeHasKey, List.any_eq_true, List.mem_map, beq_iff_eq]

/-- Putting a fresh key grows the store by exactly one record. -/
theorem storePut_length_fresh (store : List (String × Doc)) (k : String)
    (d : Doc) (h : storeHasKey store k = false) :
    (storePut store k d).length = store.length + 1 := by
  induction store with
  | nil => simp [storePut]
  | cons p rest ih =>
    obtain ⟨k1, d1⟩ := p
    simp [storeHasKey, List.any_cons] at h
    simp [storePut, h.1, ih (by simpa [storeHasKey] using h.2)]

/-- Deleting a present key shrinks the store by exactly one record. -/
theorem storeDel_length (store : List (String × Doc)) (k : String)
    (h : storeHasKey store k = true) :
    (storeDel store k).length + 1 = store.length := by
  induction store with
  | nil => simp [storeHasKey] at h
  | cons p rest ih =>
    obtain ⟨k1, d1⟩ := p
    by_cases h1 : k1 = k
    · simp [storeDel, h1]
    · simp [storeHasKey, List.any_cons, h1] at h
      simp [storeDel, h1]
      exact ih (by simpa [storeHasKey] using h)

/-- The cleanup scan splits the records between kept ones and the
deletion count. -/
theorem cleanupScan_length (now secs : Int) (l : List (String × Doc)) :
    (cleanupScan now secs l).1.length + (cleanupScan now secs l).2.1 =
      l.length := by
  induction l with
  | nil => simp [cleanupScan]
  | cons p rest ih =>
    obtain ⟨k, d⟩ := p
    cases hts : docTs d with
    | none => simp [cleanupScan, hts]
    | some ts =>
      by_cases hc : now - ts ≥ secs <;>
        simp [cleanupScan, hts, hc] <;> omega

/-- A successful `write` preserves the counter invariant. -/
theorem write_wf (db : DB) (document : JVal) (dev : Bool) (now : Int)
    (draws : List Nat) (db1 : DB) (i : String) (h : dbWf db)
    (hw : write db document dev now draws = .ok db1 i) : dbWf db1 := by
  cases document
  case obj d =>
    cases hg : generate_id draws (db.store.map Prod.fst) with
    | none => simp [write, hg] at hw
    | some j =>
      simp [write, hg] at hw
      have hfresh : storeHasKey db.store j = false := by
        have hmem := generate_id_fresh draws _ j hg
        cases hk : storeHasKey db.store j
        · rfl
        · exact absurd ((storeHasKey_iff db.store j).mp hk) hmem
      rw [← hw.1, dbWf]
      simp [storePut_length_fresh db.store j _ hfresh]
      exact h
  all_goals simp [write] at hw

/-- The operation `delete` preserves the counter invariant in every branch. -/
theorem delete_wf (db : DB) (_id : String) (drop_all : Bool)
    (h : dbWf db) : dbWf (delete db _id drop_all).2 := by
  unfold delete
  split
  · rename_i hcond
    cases hk : storeHasKey db.store _id
    · simpa [hk] using h
    · have := storeDel_length db.store _id hk
      have hlen : 1 ≤ db.store.length := by omega
      simp [hk, dbWf]
      rw [dbWf] at h
      omega
  · split
    · simp [dbWf]
    · exact h

/-- The operation `cleanup` preserves the counter invariant whether it returns
guidance, completes, or crashes mid-scan. -/
theorem cleanup_wf (db : DB) (s : Option Int) (now : Int) (h : dbWf db) :
    dbWf (cleanup db s now).2 := by
  unfold cleanup
  cases hc : cleanupThreshold db s with
  | none => simpa using h
  | some secs =>
    have hl := cleanupScan_length now secs db.store
    rw [dbWf] at h
    simp [dbWf]
    omega

/-- One completed operation preserves the counter invariant. -/
theorem step_preserves_wf (db : DB) (op : Op) (h : dbWf db) :
    dbWf (step db op) := by
  cases op with
  | writeOp document dev now draws =>
    simp only [step]
    cases hwr : write db document dev now draws with
    | ok db1 i => exact write_wf db document dev now draws db1 i h hwr
    | typeError => exact h
    | idError => exact h
  | deleteOp _id drop_all => exact delete_wf db _id drop_all h
  | cleanupOp seconds now => exact cleanup_wf db seconds now h

/-- Claim C5: Starting from an open store whose cached counter equals
its key count, the counter still equals the number of physically
present keys after any sequence of `write`, `delete` (single-id or
`drop_all`) and `cleanup` calls. -/
theorem c5_length_invariant (db : DB) (ops : List Op) (h : dbWf db) :
    dbWf (ops.foldl step db) := by
  induction ops generalizing db with
  | nil => simpa using h
  | cons op rest ih => exact ih (step db op) (step_preserves_wf db op h)

/-- Witness for `c5_length_invariant`: two writes, a single-id delete,
a cleanup, and a drop-all, starting from the empty store. -/
theorem c5_length_invariant_witness :
    dbWf (List.foldl step emptyDB
      [.writeOp (.obj [("a", .i 1)]) true 0 [7],
       .writeOp (.obj [("b", .i 2)]) false 5 [8],
       .deleteOp "7" false,
       .cleanupOp (some 1) 10,
       .deleteOp "" true]) :=
  c5_length_invariant emptyDB
    [.writeOp (.obj [("a", .i 1)]) true 0 [7],
     .writeOp (.obj [("b", .i 2)]) false 5 [8],
     .deleteOp "7" false,
     .cleanupOp (some 1) 10,
     .deleteOp "" true] rfl

/-! ## Claim C6 — mixed exact and wildcard predicates -/

/-- Pass 1 builds exactly `buildKw kwargs kw_items`, whatever the
document and query set. -/
theorem exactPass_fst (fl db_doc : Doc) (kwargs : List (String × JVal))
    (kw : Doc) (qs : List Doc) :
    (exactPass fl db_doc kwargs kw qs).1 = buildKw kwargs kw := by
  induction kwargs generalizing kw qs with
  | nil => rfl
  | cons p rest ih =>
    obtain ⟨k, v⟩ := p
    simp only [exactPass, buildKw]
    exact ih _ _

/-- When every wildcard predicate of `kw` matches the flattened view,
pass 2 completes and returns a `matched_kwargs` all of whose pairs
occur in the flattened view; it is non-empty as soon as the
accumulator is, or as soon as `kw` holds any wildcard predicate. -/
theorem wildcardPass_ok (fl : Doc) (kw : Doc) : ∀ (acc : Doc),
    (∀ p ∈ acc, pairIn p fl = true) →
    (∀ p ∈ kw, endsWithChar (pyStr p.2) '*' = true →
      ∃ dv, dictGet fl p.1 = some dv ∧
        matchStart (dropLastChar (pyStr p.2)) (pyStr dv) = true) →
    ∃ matched, wildcardPass fl kw acc = .ok matched ∧
      (∀ p ∈ matched, pairIn p fl = true) ∧
      (acc ≠ [] → matched ≠ []) ∧
      (∀ p ∈ kw, endsWithChar (pyStr p.2) '*' = true → matched ≠ []) := by
  induction kw with
  | nil =>
    intro acc hacc _
    exact ⟨acc, rfl, hacc, fun h => h, fun p hp => absurd hp (List.not_mem_nil p)⟩
  | cons q rest ih =>
    intro acc hacc hwm
    obtain ⟨k, v⟩ := q
    by_cases hw : endsWithChar (pyStr v) '*' = true
    · obtain ⟨dv, hget, hmatch⟩ := hwm (k, v) (List.mem_cons_self _ _) hw
      have hacc1 : ∀ p ∈ dictSet acc k dv, pairIn p fl = true := by
        intro p hp
        rcases mem_dictSet acc k dv p hp with h1 | h1
        · subst h1; exact pairIn_of_dictGet fl k dv hget
        · exact hacc p h1
      obtain ⟨matched, hrun, hpairs, hne, _⟩ :=
        ih (dictSet acc k dv) hacc1
          (fun p hp hq => hwm p (List.mem_cons_of_mem _ hp) hq)
      refine ⟨matched, ?_, hpairs,
        fun _ => hne (dictSet_ne_nil acc k dv),
        fun p hp hq => hne (dictSet_ne_nil acc k dv)⟩
      simp only [wildcardPass, hw, wildcard_query, hget, if_true]
      exact hmatch ▸ hrun
    · obtain ⟨matched, hrun, hpairs, hne, hwild⟩ :=
        ih acc hacc (fun p hp hq => hwm p (List.mem_cons_of_mem _ hp) hq)
      refine ⟨matched, ?_, hpairs, hne, ?_⟩
      · simpa only [wildcardPass, hw, if_false, Bool.false_eq_true] using hrun
      · intro p hp hq
        rcases List.mem_cons.mp hp with h1 | h1
        · subst h1
          exact absurd hq hw
        · exact hwild p h1 hq

/-- Appending via `_queryset_append` always leaves a document equal
(in Python's `==` sense) to `db_doc` in the query set. -/
theorem any_docEq_queryset_append (db_doc : Doc) (qs : List Doc)
    (hnd : keysNodup db_doc) :
    (queryset_append db_doc qs).any (fun q => docEq q db_doc) = true := by
  unfold queryset_append
  by_cases h : qs.any (fun q => docEq q db_doc) = true
  · simp [h]
  · simp only [h, if_false, Bool.false_eq_true, List.any_append, List.any_cons,
      List.any_nil, Bool.or_false]
    simp [docEq_refl db_doc hnd]

/-- Claim C6: For a record whose wildcard predicates all match its
flattened view (and at least one wildcard predicate is present), the
wildcard pass — which runs regardless of the exact pass's outcome —
re-runs the membership test with only the wildcard-matched subset, so
the document is collected even when its exact (non-wildcard)
predicates match nothing: no hypothesis below constrains the
non-wildcard predicates. -/
theorem c6_wildcard_subset_append (utc_offset recKey : String)
    (stored db_doc : Doc) (kwargs : List (String × JVal)) (qs : List Doc)
    (hts : time_to_iso (add_id recKey stored) utc_offset = some db_doc)
    (hnd : keysNodup db_doc)
    (hhd : hashableDoc (flattenDoc db_doc) = true)
    (hhk : hashableKwargs kwargs = true)
    (hwm : ∀ p ∈ buildKw kwargs [], endsWithChar (pyStr p.2) '*' = true →
      ∃ dv, dictGet (flattenDoc db_doc) p.1 = some dv ∧
        matchStart (dropLastChar (pyStr p.2)) (pyStr dv) = true)
    (p0 : String × JVal) (hp0 : p0 ∈ buildKw kwargs [])
    (hw0 : endsWithChar (pyStr p0.2) '*' = true) :
    ∃ qs1, filterDoc utc_offset kwargs recKey stored qs = .ok qs1 ∧
      qs1.any (fun q => docEq q db_doc) = true := by
  have hkne : kwargs ≠ [] := by
    intro he; subst he; simp [buildKw] at hp0
  have hke : kwargs.isEmpty = false := by
    cases kwargs with
    | nil => exact absurd rfl hkne
    | cons a l => rfl
  obtain ⟨matched, hrun, hpairs, _, hwild⟩ :=
    wildcardPass_ok (flattenDoc db_doc) (buildKw kwargs []) []
      (by intro p hp; simp at hp) hwm
  have hmne : matched ≠ [] := hwild p0 hp0 hw0
  have hmie : matched.isEmpty = false := by
    cases matched with
    | nil => exact absurd rfl hmne
    | cons a l => rfl
  have hfc : frozen_compare matched (flattenDoc db_doc) = true := by
    rw [frozen_compare, List.all_eq_true]
    exact hpairs
  refine ⟨queryset_append db_doc
    (exactPass (flattenDoc db_doc) db_doc kwargs [] qs).2, ?_, ?_⟩
  · unfold filterDoc
    rw [hts]
    simp only [hke, Bool.false_eq_true, if_false, hhd, hhk, Bool.and_self,
      Bool.not_true, exactPass_fst, hrun, hmie, hfc, if_true]
  · exact any_docEq_queryset_append db_doc _ hnd

/-- Witness for `c6_wildcard_subset_append`: the stored document
`{"name": "Alice", "age": 30}` against `filter(age=99, name="Al*")` —
the exact predicate `age=99` matches nothing, the wildcard matches,
and the document is collected. -/
theorem c6_wildcard_subset_append_witness :
    ∃ qs1, filterDoc "" [("age", .i 99), ("name", .s "Al*")] "1"
        [("name", .s "Alice"), ("age", .i 30), ("timestamp", .i 0)] [] =
        .ok qs1 ∧
      qs1.any (fun q => docEq q
        [("name", .s "Alice"), ("age", .i 30),
         ("timestamp", .s "2000-01-01T00:00:00+00:00"),
         ("document_id", .s "1")]) = true := by
  refine c6_wildcard_subset_append "" "1"
    [("name", .s "Alice"), ("age", .i 30), ("timestamp", .i 0)]
    [("name", .s "Alice"), ("age", .i 30),
     ("timestamp", .s "2000-01-01T00:00:00+00:00"), ("document_id", .s "1")]
    [("age", .i 99), ("name", .s "Al*")] [] rfl
    (by rw [keysNodup]; decide) rfl rfl
    ?_ ("name", .s "Al*") ?_ rfl
  · intro p hp hq
    have hp1 : p = ("age", JVal.i 99) ∨ p = ("name", JVal.s "Al*") := by
      simpa [buildKw, dictSet, normKwVal] using hp
    rcases hp1 with h1 | h1
    · rw [h1] at hq
      exact absurd hq (by decide)
    · rw [h1]
      exact ⟨.s "Alice", rfl, rfl⟩
  · simp [buildKw, dictSet, normKwVal]

/-! ## Claim C8 — flattening matches the amended reference -/

/-- The walk `_set_attrs` performs exactly the dict-insertions of the reference
pair list: the flattener equals the reference flattener run from any
starting state. -/
theorem setAttrs_eq_spec : ∀ (dct : Doc) (parent : String) (st : Doc),
    setAttrs dct parent st =
      (flattenSpecPairs parent dct).foldl (fun acc p => dictSet acc p.1 p.2) st
  | [], _, _ => by simp [setAttrs, flattenSpecPairs]
  | (key, .obj o) :: rest, parent, st => by
    cases hb : parent == "" <;>
      simp [setAttrs, setAttrVal, flattenSpecPairs, hb, List.foldl_append,
        setAttrs_eq_spec o, setAttrs_eq_spec rest parent]
  | (key, .s v) :: rest, parent, st => by
    cases hb : parent == "" <;>
      simp [setAttrs, setAttrVal, flattenSpecPairs, hb,
        setAttrs_eq_spec rest parent]
  | (key, .i v) :: rest, parent, st => by
    cases hb : parent == "" <;>
      simp [setAttrs, setAttrVal, flattenSpecPairs, hb,
        setAttrs_eq_spec rest parent]
  | (key, .b v) :: rest, parent, st => by
    cases hb : parent == "" <;>
      simp [setAttrs, setAttrVal, flattenSpecPairs, hb,
        setAttrs_eq_spec rest parent]
  | (key, .null) :: rest, parent, st => by
    cases hb : parent == "" <;>
      simp [setAttrs, setAttrVal, flattenSpecPairs, hb,
        setAttrs_eq_spec rest parent]
  | (key, .arr l) :: rest, parent, st => by
    cases hb : parent == "" <;>
      simp [setAttrs, setAttrVal, flattenSpecPairs, hb,
        setAttrs_eq_spec rest parent]

/-- Claim C8, amended: The flattened view equals the reference
definition amended at one point: nested mappings are walked
recursively with `__`-joined paths (bare key at top level), scalar
leaves keep their value under their joined path, and a sequence-valued
leaf is stringified only when it sits at top level (no parent path) —
a nested sequence leaf is kept as the list value itself.  In
particular `{"user": {"name": "Al"}}` flattens to
`user__name ↦ "Al"`, and `filter(user__name="Al")` matches that
stored document. -/
theorem c8_flatten_matches_reference (d : Doc) :
    flattenDoc d = flattenSpec d ∧
    flattenDoc [("user", .obj [("name", .s "Al")])] =
      [("user__name", .s "Al")] ∧
    filter userDB [("user__name", .s "Al")] = .ok (some [userOut]) :=
  ⟨setAttrs_eq_spec d "" [], rfl, rfl⟩

/-! ## Claim C4 — write/read round trip, amended part -/

/-- The helper `Nat.toDigitsCore` never shortens its accumulator. -/
theorem toDigitsCore_length_le (b : Nat) :
    ∀ (f n : Nat) (l : List Char),
      l.length ≤ (Nat.toDigitsCore b f n l).length := by
  intro f
  induction f with
  | zero => intro n l; simp [Nat.toDigitsCore]
  | succ f ih =>
    intro n l
    simp only [Nat.toDigitsCore]
    split
    · simp
    · exact le_trans (by simp) (ih _ _)

/-- The decimal rendering of a natural number is nonempty. -/
theorem nat_repr_ne_empty (n : Nat) : toString n ≠ "" := by
  show Nat.repr n ≠ ""
  rw [Nat.repr, Nat.toDigits]
  simp only [Nat.toDigitsCore]
  split
  · intro h
    have hdata : (Nat.digitChar (n % 10) :: []) = ([] : List Char) :=
      congrArg String.data h
    exact List.noConfusion hdata
  · intro h
    have hdata : Nat.toDigitsCore 10 n (n / 10) [Nat.digitChar (n % 10)] =
        ([] : List Char) := congrArg String.data h
    have hlen := toDigitsCore_length_le 10 n (n / 10) [Nat.digitChar (n % 10)]
    rw [hdata] at hlen
    simp at hlen

/-- A generated id is a nonempty string. -/
theorem generate_id_ne_empty (draws : List Nat) (keys : List String)
    (i : String) (h : generate_id draws keys = some i) : i ≠ "" := by
  cases draws with
  | nil => simp [generate_id] at h
  | cons d rest =>
    simp [generate_id] at h
    exact h.2 ▸ nat_repr_ne_empty (d % 16777216)

/-- Looking up the key just put returns the value put. -/
theorem storeGet_storePut_self (store : List (String × Doc)) (k : String)
    (d : Doc) : storeGet (storePut store k d) k = some d := by
  induction store with
  | nil => simp [storePut, storeGet]
  | cons p rest ih =>
    obtain ⟨k1, d1⟩ := p
    by_cases h : k1 = k <;> simp [storePut, storeGet, h, ih]

/-- A put leaves other keys' bindings untouched. -/
theorem storeGet_storePut_ne (store : List (String × Doc)) (k k2 : String)
    (d : Doc) (h : k ≠ k2) :
    storeGet (storePut store k d) k2 = storeGet store k2 := by
  induction store with
  | nil => simp [storePut, storeGet, h]
  | cons p rest ih =>
    obtain ⟨k1, d1⟩ := p
    by_cases h1 : k1 = k
    · subst h1; simp [storePut, storeGet, h]
    · simp [storePut, storeGet, h1, ih]

/-- A bound key is present. -/
theorem storeGet_isSome_hasKey (store : List (String × Doc)) (k : String)
    (dc : Doc) (h : storeGet store k = some dc) :
    storeHasKey store k = true := by
  induction store with
  | nil => simp [storeGet] at h
  | cons p rest ih =>
    obtain ⟨k1, d1⟩ := p
    by_cases h1 : k1 = k
    · simp [storeHasKey, h1]
    · simp [storeGet, h1] at h
      have := ih h
      simp [storeHasKey, List.any_cons] at this ⊢
      exact Or.inr this

/-- Putting a fresh key appends it to the key sequence. -/
theorem storePut_map_fst_fresh (store : List (String × Doc)) (k : String)
    (d : Doc) (h : storeHasKey store k = false) :
    (storePut store k d).map Prod.fst = store.map Prod.fst ++ [k] := by
  induction store with
  | nil => simp [storePut]
  | cons p rest ih =>
    obtain ⟨k1, d1⟩ := p
    simp [storeHasKey, List.any_cons] at h
    simp [storePut, h.1, ih (by simpa [storeHasKey] using h.2)]

/-- Appending a fresh element keeps a key list duplicate-free. -/
theorem nodup_append_fresh (l : List String) (k : String) (hnd : l.Nodup)
    (hk : k ∉ l) : (l ++ [k]).Nodup := by
  simp [List.nodup_append, hnd, hk]

/-- The single-id scan returns its accumulator when the requested key
is absent. -/
theorem readScan_no_match (off i : String) (iso : Bool)
    (store : List (String × Doc)) : ∀ (acc : Option Doc),
    storeHasKey store i = false → readScan off i iso store acc = .ok acc := by
  induction store with
  | nil => intro acc _; rfl
  | cons p rest ih =>
    intro acc h
    obtain ⟨k1, d1⟩ := p
    simp [storeHasKey, List.any_cons] at h
    have hne : ¬(i = k1) := fun he => h.1 he.symm
    simp [readScan, hne]
    exact ih acc (by simpa [storeHasKey] using h.2)

/-- The single-id scan on a duplicate-free store finds the unique
binding, converts its timestamp and injects `_id`. -/
theorem readScan_found (off i : String) (store : List (String × Doc))
    (dc doc1 : Doc) (hnd : (store.map Prod.fst).Nodup)
    (hget : storeGet store i = some dc)
    (hconv : time_to_iso dc off = some doc1) :
    readScan off i true store none =
      .ok (some (dictSet doc1 "_id" (.s i))) := by
  induction store with
  | nil => simp [storeGet] at hget
  | cons p rest ih =>
    obtain ⟨k1, d1⟩ := p
    rw [List.map_cons, List.nodup_cons] at hnd
    by_cases h1 : k1 = i
    · subst h1
      simp [storeGet] at hget
      subst hget
      simp [readScan, hconv]
      apply readScan_no_match
      cases hk : storeHasKey rest k1
      · rfl
      · exact absurd ((storeHasKey_iff _ _).mp hk) hnd.1
    · have hne : ¬(i = k1) := fun he => h1 he.symm
      simp [readScan, hne]
      simp [storeGet, h1] at hget
      exact ih hnd.2 hget

/-- What a successful `write` of a dict did: the id came from
`generate_id` (hence is fresh), the enveloped document was put under
it, and the configuration fields are untouched. -/
theorem write_obj_ok (db : DB) (d : Doc) (dev : Bool) (now : Int)
    (draws : List Nat) (db1 : DB) (i : String)
    (hw : write db (.obj d) dev now draws = .ok db1 i) :
    generate_id draws (db.store.map Prod.fst) = some i ∧
    db1.store = storePut db.store i
      (if dev then
        dictSet (dictSet d "timestamp" (.i now)) "device_id" (.s db.device_id)
       else dictSet d "timestamp" (.i now)) ∧
    db1.utc_offset = db.utc_offset := by
  cases hg : generate_id draws (db.store.map Prod.fst) with
  | none => simp [write, hg] at hw
  | some j =>
    simp [write, hg] at hw
    obtain ⟨h1, h2⟩ := hw
    subst h2
    rw [← h1]
    exact ⟨rfl, rfl, rfl⟩

/-- A sequence of (possibly failing) `write` calls preserves key
uniqueness, every existing binding, and the configured offset. -/
theorem writeOps_preserve (jobs : List Op) : ∀ (db : DB) (i : String)
    (dc : Doc),
    (∀ op ∈ jobs, ∃ doc dv t dr, op = Op.writeOp doc dv t dr) →
    (db.store.map Prod.fst).Nodup →
    storeGet db.store i = some dc →
    ((jobs.foldl step db).store.map Prod.fst).Nodup ∧
    storeGet (jobs.foldl step db).store i = some dc ∧
    (jobs.foldl step db).utc_offset = db.utc_offset := by
  induction jobs with
  | nil => intro db i dc _ hnd hget; exact ⟨hnd, hget, rfl⟩
  | cons op rest ih =>
    intro db i dc hjobs hnd hget
    obtain ⟨doc, dv, t, dr, rfl⟩ := hjobs op (List.mem_cons_self _ _)
    have hstep :
        ((step db (.writeOp doc dv t dr)).store.map Prod.fst).Nodup ∧
        storeGet (step db (.writeOp doc dv t dr)).store i = some dc ∧
        (step db (.writeOp doc dv t dr)).utc_offset = db.utc_offset := by
      simp only [step]
      cases hwr : write db doc dv t dr with
      | ok db1 j =>
        cases doc
        case obj dd =>
          obtain ⟨hg, hst, hoff⟩ := write_obj_ok db dd dv t dr db1 j hwr
          have hfresh : j ∉ db.store.map Prod.fst :=
            generate_id_fresh dr _ j hg
          have hfreshB : storeHasKey db.store j = false := by
            cases hk : storeHasKey db.store j
            · rfl
            · exact absurd ((storeHasKey_iff _ _).mp hk) hfresh
          have hji : j ≠ i := by
            intro he; subst he
            exact hfresh
              ((storeHasKey_iff _ _).mp (storeGet_isSome_hasKey _ _ _ hget))
          refine ⟨?_, ?_, hoff⟩
          · rw [hst, storePut_map_fst_fresh _ _ _ hfreshB]
            exact nodup_append_fresh _ _ hnd hfresh
          · rw [hst, storeGet_storePut_ne _ _ _ _ hji]
            exact hget
        all_goals simp [write] at hwr
      | typeError => exact ⟨hnd, hget, rfl⟩
      | idError => exact ⟨hnd, hget, rfl⟩
    have hres := ih (step db (.writeOp doc dv t dr)) i dc
      (fun op hop => hjobs op (List.mem_cons_of_mem _ hop)) hstep.1 hstep.2.1
    rw [List.foldl_cons]
    exact ⟨hres.1, hres.2.1, hres.2.2.trans hstep.2.2⟩

/-- Claim C4, amended: After `write(d)` succeeds with generated id `i`
— and after any number of further successful or failed writes of other
documents (their ids are fresh, hence distinct from `i`) —
`read(i)` returns a document that still holds every original pair of
`d` whose key is not one of the injected fields `timestamp`,
`device_id`, `_id`, plus a display-string `timestamp` and the injected
`_id` equal to `i`. -/
theorem c4_write_read_roundtrip (db : DB) (d : Doc) (dev : Bool)
    (now : Int) (draws : List Nat) (db1 : DB) (i : String) (jobs : List Op)
    (hnd : (db.store.map Prod.fst).Nodup)
    (hw : write db (.obj d) dev now draws = .ok db1 i)
    (hjobs : ∀ op ∈ jobs, ∃ doc dv t dr, op = Op.writeOp doc dv t dr) :
    ∃ r, read (jobs.foldl step db1) i true false = .found r ∧
      (∀ k v, dictGet d k = some v → k ≠ "timestamp" → k ≠ "device_id" →
        k ≠ "_id" → dictGet r k = some v) ∧
      (∃ ts, dictGet r "timestamp" = some (.s ts)) ∧
      dictGet r "_id" = some (.s i) := by
  obtain ⟨hg, hst, hoff⟩ := write_obj_ok db d dev now draws db1 i hw
  have hi : i ≠ "" := generate_id_ne_empty draws _ i hg
  have hfresh : i ∉ db.store.map Prod.fst := generate_id_fresh draws _ i hg
  have hfreshB : storeHasKey db.store i = false := by
    cases hk : storeHasKey db.store i
    · rfl
    · exact absurd ((storeHasKey_iff _ _).mp hk) hfresh
  set d2 := (if dev then
      dictSet (dictSet d "timestamp" (.i now)) "device_id" (.s db.device_id)
    else dictSet d "timestamp" (.i now)) with hd2
  have hnd1 : (db1.store.map Prod.fst).Nodup := by
    rw [hst, storePut_map_fst_fresh _ _ _ hfreshB]
    exact nodup_append_fresh _ _ hnd hfresh
  have hget1 : storeGet db1.store i = some d2 := by
    rw [hst]; exact storeGet_storePut_self _ _ _
  obtain ⟨hnd2, hget2, hoff2⟩ := writeOps_preserve jobs db1 i d2 hjobs hnd1 hget1
  have hts : dictGet d2 "timestamp" = some (.i now) := by
    rw [hd2]
    cases dev
    · simp only [if_false, Bool.false_eq_true]
      exact dictGet_dictSet_self d "timestamp" (.i now)
    · simp only [if_true]
      rw [dictGet_dictSet_ne _ _ _ _ (by decide)]
      exact dictGet_dictSet_self d "timestamp" (.i now)
  set db2 := jobs.foldl step db1 with hdb2
  set tsStr := (if db2.utc_offset == "" then iso_time now.toNat "+00:00"
      else iso_time now.toNat db2.utc_offset) with htsStr
  have hconv : time_to_iso d2 db2.utc_offset =
      some (dictSet d2 "timestamp" (.s tsStr)) := by
    unfold time_to_iso
    rw [hts]
  have hscan : readScan db2.utc_offset i true db2.store none =
      .ok (some (dictSet (dictSet d2 "timestamp" (.s tsStr)) "_id" (.s i))) :=
    readScan_found db2.utc_offset i db2.store d2 _ hnd2 hget2 hconv
  refine ⟨dictSet (dictSet d2 "timestamp" (.s tsStr)) "_id" (.s i),
    ?_, ?_, ?_, ?_⟩
  · simp [read, hi, hscan]
  · intro k v hk hkt hkd hki
    rw [dictGet_dictSet_ne _ _ _ _ (fun he => hki he.symm),
      dictGet_dictSet_ne _ _ _ _ (fun he => hkt he.symm), hd2]
    cases dev
    · simp only [if_false, Bool.false_eq_true]
      rw [dictGet_dictSet_ne _ _ _ _ (fun he => hkt he.symm)]
      exact hk
    · simp only [if_true]
      rw [dictGet_dictSet_ne _ _ _ _ (fun he => hkd he.symm),
        dictGet_dictSet_ne _ _ _ _ (fun he => hkt he.symm)]
      exact hk
  · refine ⟨tsStr, ?_⟩
    rw [dictGet_dictSet_ne _ _ _ _ (by decide)]
    exact dictGet_dictSet_self _ "timestamp" _
  · exact dictGet_dictSet_self _ "_id" _

/-- Witness for `c4_write_read_roundtrip`: write `{"x": 5}` to the
configured store, write an unrelated `{"y": 7}`, then read the first
id back. -/
theorem c4_write_read_roundtrip_witness :
    ∃ r, read ([Op.writeOp (.obj [("y", .i 7)]) true 3 [1]].foldl step xDocDB)
        "0" true false = .found r ∧
      (∀ k v, dictGet [("x", JVal.i 5)] k = some v → k ≠ "timestamp" →
        k ≠ "device_id" → k ≠ "_id" → dictGet r k = some v) ∧
      (∃ ts, dictGet r "timestamp" = some (.s ts)) ∧
      dictGet r "_id" = some (.s "0") := by
  refine c4_write_read_roundtrip devDB [("x", .i 5)] true 0 [0] xDocDB "0"
    [Op.writeOp (.obj [("y", .i 7)]) true 3 [1]] (by simp [devDB, emptyDB])
    rfl ?_
  intro op hop
  simp at hop
  exact ⟨.obj [("y", .i 7)], true, 3, [1], hop⟩

/-! ## Claim C4 — write/read round trip, counterexample part -/

/-- Claim C4, counterexample: The round trip does not hold for *every*
dict: writing `{"timestamp": 999}` (epoch 0, draw 0) overwrites the
caller's `timestamp` value at write time, and the document returned by
`read` holds the display string for epoch 0 there — not the original
pair `("timestamp", 999)`. -/
theorem c4_counterexample_reserved_timestamp :
    write devDB (.obj [("timestamp", .i 999)]) true 0 [0] =
      .ok writtenTsDB "0" ∧
    read writtenTsDB "0" true false = .found tsReadDoc ∧
    dictGet tsReadDoc "timestamp" =
      some (.s "2000-01-01T00:00:00+00:00") ∧
    JVal.s "2000-01-01T00:00:00+00:00" ≠ JVal.i 999 :=
  ⟨rfl, rfl, rfl, fun h => JVal.noConfusion h⟩

end TetherDB
